import Mathlib

set_option maxRecDepth 4000

/-!
Shallow embedding of the entity-matching core of the Taipo Big Donations
Watcher repository (src/src/scrapers/weibo.js, entity-matcher section).
Names are modelled as lists of characters; JavaScript's global regex
replacement of a literal word is modelled by a left-to-right scan that,
at each position, either removes a matching occurrence and resumes after
it, or keeps the character and moves one position forward — exactly the
semantics of String.prototype.replace with a global literal pattern.
-/

namespace Watcher

/-- A scraped or ledger name, as a list of characters. -/
abbrev Name := List Char

/-- Whitespace test modelling the JavaScript regex class \s (and trim). -/
def isWs (c : Char) : Bool :=
  c = ' ' || c = '\t' || c = '\n' || c = '\r' ||
  c.toNat = 11 || c.toNat = 12 || c.toNat = 0xa0 || c.toNat = 0x1680 ||
  (0x2000 ≤ c.toNat && c.toNat ≤ 0x200a) ||
  c.toNat = 0x2028 || c.toNat = 0x2029 || c.toNat = 0x202f ||
  c.toNat = 0x205f || c.toNat = 0x3000 || c.toNat = 0xfeff

/-- Lowercase every character (JavaScript toLowerCase, ASCII range). -/
def lowerAll (s : Name) : Name := s.map Char.toLower

/-- JavaScript String.prototype.trim. -/
def trim (s : Name) : Name :=
  ((s.dropWhile isWs).reverse.dropWhile isWs).reverse

/-- Exact prefix test on character lists. -/
def isPrefixEq : Name → Name → Bool
  | [], _ => true
  | _ :: _, [] => false
  | a :: w, b :: s => a == b && isPrefixEq w s

/-- Case-insensitive prefix test (models a regex with the i flag). -/
def isPrefixCI : Name → Name → Bool
  | [], _ => true
  | _ :: _, [] => false
  | a :: w, b :: s => a.toLower == b.toLower && isPrefixCI w s

/-- Scan for an exact occurrence of the needle inside the haystack. -/
def hasSubGo (needle : Name) : Name → Bool
  | [] => needle.isEmpty
  | c :: rest => isPrefixEq needle (c :: rest) || hasSubGo needle rest

/-- JavaScript String.prototype.includes: hay contains needle. -/
def hasSub (hay needle : Name) : Bool := hasSubGo needle hay

/-- Case-insensitive occurrence test for a word inside a string. -/
def occursCI (w : Name) : Name → Bool
  | [] => isPrefixCI w []
  | c :: rest => isPrefixCI w (c :: rest) || occursCI w rest

/-- One global pass removing every (case-insensitive) occurrence of `w`,
resuming after each removed occurrence; `skip` counts characters still
to drop from an occurrence already matched. -/
def stripGo (w : Name) : Nat → Name → Name
  | _, [] => []
  | skip+1, _ :: rest => stripGo w skip rest
  | 0, c :: rest =>
      if isPrefixCI w (c :: rest) then stripGo w (w.length - 1) rest
      else c :: stripGo w 0 rest

/-- str.replace(new RegExp(escapeRegex(w), "gi"), ""). -/
def stripWord (w s : Name) : Name := if w.isEmpty then s else stripGo w 0 s

/-- Global replacement pass: each occurrence of `w` is replaced by `repl`,
scanning resumes after the occurrence (the replacement is not rescanned). -/
def replGo (w repl : Name) : Nat → Name → Name
  | _, [] => []
  | skip+1, _ :: rest => replGo w repl skip rest
  | 0, c :: rest =>
      if isPrefixCI w (c :: rest) then repl ++ replGo w repl (w.length - 1) rest
      else c :: replGo w repl 0 rest

/-- str.replace(new RegExp(w, "g"), repl) for a literal pattern. -/
def replaceAll (w repl s : Name) : Name :=
  if w.isEmpty then s else replGo w repl 0 s

/-- Length of a match of the stock-code regex \s*[（(]\d+[)）]\s* at the
head of `s`, if any. -/
def stockMatchLen (s : Name) : Option Nat :=
  let w1 := s.takeWhile isWs
  match s.drop w1.length with
  | c :: r1 =>
      if c = '（' || c = '(' then
        let ds := r1.takeWhile Char.isDigit
        if ds.isEmpty then none
        else
          match r1.drop ds.length with
          | d :: r2 =>
              if d = ')' || d = '）' then
                some (w1.length + 1 + ds.length + 1 + (r2.takeWhile isWs).length)
              else none
          | [] => none
      else none
  | [] => none

/-- Global removal of stock-code annotations such as "(0384)". -/
def stockGo : Nat → Name → Name
  | _, [] => []
  | skip+1, _ :: rest => stockGo skip rest
  | 0, c :: rest =>
      match stockMatchLen (c :: rest) with
      | some n => stockGo (n - 1) rest
      | none => c :: stockGo 0 rest

/-- str.replace(/\s*[（(]\d+[)）]\s*\/g, ""). -/
def stripStock (s : Name) : Name := stockGo 0 s

/-- Does the stock-code regex match anywhere in `s`? -/
def stockOccurs : Name → Bool
  | [] => false
  | c :: rest => (stockMatchLen (c :: rest)).isSome || stockOccurs rest

/-- MIN_SUBSTRING_LENGTH_CN. -/
def MIN_SUBSTRING_LENGTH_CN : Nat := 2

/-- MIN_SUBSTRING_LENGTH_EN. -/
def MIN_SUBSTRING_LENGTH_EN : Nat := 4

/-- FALSE_POSITIVE_PREFIXES: names that must not trigger a match alone. -/
def FALSE_POSITIVE_PREFIXES : List Name :=
  ["中國".toList, "中国".toList, "香港".toList, "台灣".toList, "台湾".toList,
   "李".toList, "張".toList, "陳".toList, "王".toList, "黃".toList,
   "林".toList, "劉".toList, "吳".toList, "周".toList, "鄭".toList,
   "藝人".toList, "先生".toList, "小姐".toList, "女士".toList, "夫婦".toList,
   "一家".toList,
   "集團".toList, "集团".toList, "公司".toList, "基金".toList, "銀行".toList,
   "银行".toList,
   "捐".toList, "捐款".toList, "捐贈".toList, "捐赠".toList]

/-- STRIP_WORDS: phrases removed before comparison, in source order. -/
def STRIP_WORDS : List Name :=
  ["藝人".toList, "先生".toList, "小姐".toList, "女士".toList, "夫婦".toList,
   "夫妇".toList, "一家".toList,
   "及".toList, "與".toList, "与".toList, "和".toList, "、".toList,
   "/".toList, ",".toList, "，".toList,
   "（".toList, "）".toList, "(".toList, ")".toList, "「".toList,
   "」".toList, "\"".toList, "\"".toList,
   "有限公司".toList, "股份有限公司".toList, "Limited".toList, "Ltd".toList,
   "Ltd.".toList,
   "集團".toList, "集团".toList, "Group".toList,
   "基金會".toList, "基金会".toList, "Foundation".toList,
   "慈善".toList, "Charity".toList,
   "控股".toList, "Holdings".toList,
   "國際".toList, "国际".toList, "International".toList,
   "香港".toList, "Hong Kong".toList, "HK".toList,
   "度".toList, "零售".toList,
   "啟動".toList, "緊急".toList, "宣布".toList, "承諾".toList, "累計".toList,
   "首批".toList, "追加".toList,
   "萬元".toList, "元".toList, "人民幣".toList, "物資".toList,
   "證券".toList, "银行".toList, "銀行".toList]

/-- Characters of the separator pattern [、\/,，及與与和\s]. -/
def isSep (c : Char) : Bool :=
  c = '、' || c = '/' || c = ',' || c = '，' || c = '及' || c = '與' ||
  c = '与' || c = '和' || isWs c

/-- Modelled from the spec: section 4.1 Script Normalizer. The repository
converts scripts through the external opencc-js package, which is not part
of the repository's sources; following section 4.1 (best-effort character
mapping, unmapped characters pass through) and section 9 (a small fixed
table covering the section-8 fixtures is an acceptable stub), the
Simplified-to-Traditional conversion is a fixed character table. -/
def s2tChar (c : Char) : Char :=
  if c = '刘' then '劉' else if c = '国' then '國' else
  if c = '红' then '紅' else if c = '会' then '會' else
  if c = '总' then '總' else if c = '灵' then '靈' else
  if c = '隐' then '隱' else if c = '气' then '氣' else c

/-- Modelled from the spec: section 4.1 Script Normalizer, inverse fixed
table for the Traditional-to-Simplified direction (external opencc-js). -/
def t2sChar (c : Char) : Char :=
  if c = '劉' then '刘' else if c = '國' then '国' else
  if c = '紅' then '红' else if c = '會' then '会' else
  if c = '總' then '总' else if c = '靈' then '灵' else
  if c = '隱' then '隐' else if c = '氣' then '气' else c

/-- Modelled from the spec: Simplified-to-Traditional conversion (s2t). -/
def s2t (s : Name) : Name := s.map s2tChar

/-- Modelled from the spec: Traditional-to-Simplified conversion (t2s). -/
def t2s (s : Name) : Name := s.map t2sChar

/-- normalizeOrgName: canonicalize organization-name variations. -/
def normalizeOrgName (name : Name) : Name :=
  if name.isEmpty then []
  else
    replaceAll "红十字总会".toList "红十字会总会".toList
      (replaceAll "紅十字總會".toList "紅十字會總會".toList name)

/-- normalizeName: trim, lowercase, drop stock codes, strip the denylist
words (lowercased, global, case-insensitive), remove all whitespace. -/
def normalizeName (name : Name) : Name :=
  if name.isEmpty then []
  else
    (STRIP_WORDS.foldl (fun acc w => stripWord (lowerAll w) acc)
        (stripStock (lowerAll (trim name)))).filter (fun c => !isWs c)

/-- Split on runs of separator characters, dropping empty pieces
(String.prototype.split on the separator regex plus the truthiness
filter). -/
def splitSepsGo (cur : Name) : Name → List Name
  | [] => if cur.isEmpty then [] else [cur.reverse]
  | c :: rest =>
      if isSep c then
        if cur.isEmpty then splitSepsGo [] rest
        else cur.reverse :: splitSepsGo [] rest
      else splitSepsGo (c :: cur) rest

/-- name.split(SEPARATOR_PATTERN).filter(p saturating to nonempty). -/
def splitSeps (s : Name) : List Name := splitSepsGo [] s

/-- Strip the denylist words (case-insensitive, as written) from one
segment, then trim it. -/
def cleanPart (p : Name) : Name :=
  trim (STRIP_WORDS.foldl (fun acc w => stripWord w acc) p)

/-- The loop body of extractCoreNames: keep cleaned segments of length
at least 2, in scan order. -/
def keepCores : List Name → List Name
  | [] => []
  | p :: ps =>
      if 2 ≤ (cleanPart p).length then cleanPart p :: keepCores ps
      else keepCores ps

/-- extractCoreNames: split a combined entity string into core names. -/
def extractCoreNames (name : Name) : List Name :=
  if name.isEmpty then [] else keepCores (splitSeps name)

/-- containsChinese: does the string contain a CJK ideograph
(U+4E00 through U+9FFF)? -/
def containsChinese (s : Name) : Bool :=
  s.any (fun c => 0x4e00 ≤ c.toNat && c.toNat ≤ 0x9fff)

/-- getMinLength: script-dependent minimum length. -/
def getMinLength (s : Name) : Nat :=
  if containsChinese s then MIN_SUBSTRING_LENGTH_CN else MIN_SUBSTRING_LENGTH_EN

/-- isTooGeneric: too short, or exactly a denylisted generic name. -/
def isTooGeneric (name : Name) : Bool :=
  if (lowerAll (trim name)).length < getMinLength (lowerAll (trim name)) then
    true
  else FALSE_POSITIVE_PREFIXES.any (fun p => lowerAll (trim name) == lowerAll p)

/-- substringMatch: equality or guarded two-way containment of the
normalized names. -/
def substringMatch (name1 name2 : Name) : Bool :=
  let n1 := normalizeName name1
  let n2 := normalizeName name2
  if n1.isEmpty || n2.isEmpty then false
  else if n1 == n2 then true
  else
    let shorter := if n1.length ≤ n2.length then n1 else n2
    let longer := if n1.length ≤ n2.length then n2 else n1
    if isTooGeneric shorter then false
    else hasSub longer shorter

/-- A match verdict: did the names match, and which strategy decided. -/
structure MatchVerdict where
  matched : Bool
  reason : String
  deriving DecidableEq, Repr

/-- One iteration of the core-name comparison loop: the verdict produced
by comparing one scraped core against one existing core, if any. -/
def corePairVerdict (sc ec : Name) : Option MatchVerdict :=
  if getMinLength sc ≤ sc.length && getMinLength ec ≤ ec.length then
    if lowerAll sc == lowerAll ec then some ⟨true, "core-exact"⟩
    else
      if hasSub (lowerAll sc) (lowerAll ec) || hasSub (lowerAll ec) (lowerAll sc) then
        if !isTooGeneric sc && !isTooGeneric ec then some ⟨true, "core-substring"⟩
        else none
      else none
  else none

/-- Inner loop over the existing cores. -/
def coreLoopInner (sc : Name) : List Name → Option MatchVerdict
  | [] => none
  | ec :: rest =>
      match corePairVerdict sc ec with
      | some v => some v
      | none => coreLoopInner sc rest

/-- Outer loop over the scraped cores (and their Traditional variants). -/
def coreLoopOuter : List Name → List Name → Option MatchVerdict
  | [], _ => none
  | sc :: rest, ecs =>
      match coreLoopInner sc ecs with
      | some v => some v
      | none => coreLoopOuter rest ecs

/-- First-occurrence deduplication (JavaScript Set insertion order). -/
def dedupFirst (l : List Name) : List Name :=
  l.foldl (fun acc x => if acc.contains x then acc else acc ++ [x]) []

/-- Number of distinct normalized scraped cores having at least one
distinct normalized existing core equal to, contained in, or containing
them (the multi-person quorum count). -/
def quorumCount (scrapedCores existingCores : List Name) : Nat :=
  let scrapedSet := dedupFirst (scrapedCores.map normalizeName)
  let existingSet := dedupFirst (existingCores.map normalizeName)
  scrapedSet.countP (fun sc =>
    existingSet.any (fun ec => sc == ec || hasSub sc ec || hasSub ec sc))

/-- The fallback applied when the core-name loop finds nothing: the
multi-person quorum test, else no-match. -/
def quorumFallback (scrapedName existingName : Name) : MatchVerdict :=
  if 2 ≤ (extractCoreNames scrapedName).length &&
      2 ≤ (extractCoreNames existingName).length then
    if 2 ≤ quorumCount (extractCoreNames scrapedName)
        (extractCoreNames existingName) then
      ⟨true, "multi-person"⟩
    else ⟨false, "no-match"⟩
  else ⟨false, "no-match"⟩

/-- matchEntities: the ordered matching cascade. -/
def matchEntities (scrapedName existingName : Name) : MatchVerdict :=
  if scrapedName.isEmpty || existingName.isEmpty then ⟨false, "empty"⟩
  else if substringMatch (normalizeOrgName scrapedName)
      (normalizeOrgName existingName) then ⟨true, "direct"⟩
  else if substringMatch (s2t (normalizeOrgName scrapedName))
      (normalizeOrgName existingName) then ⟨true, "s2t"⟩
  else if substringMatch (normalizeOrgName scrapedName)
      (t2s (normalizeOrgName existingName)) then ⟨true, "t2s"⟩
  else
    (coreLoopOuter
        (extractCoreNames scrapedName ++ (extractCoreNames scrapedName).map s2t)
        (extractCoreNames existingName)).getD
      (quorumFallback scrapedName existingName)

/-- Stated from the specification's own words for claim C1 (the
direct-substring strategy, section 4.5 step 2), with the one amendment the
code forces: when either side normalizes to the empty string the strategy
fails even if the two normalized strings are equal. -/
def specDirectSubstring (name1 name2 : Name) : Bool :=
  let n1 := normalizeName name1
  let n2 := normalizeName name2
  if n1.isEmpty || n2.isEmpty then false
  else if n1 == n2 then true
  else
    let shorter := if n1.length ≤ n2.length then n1 else n2
    let longer := if n1.length ≤ n2.length then n2 else n1
    if isTooGeneric shorter then false
    else hasSub longer shorter

/-- A ledger entry: only the display name takes part in matching. -/
structure LedgerEntry where
  entity : Name
  deriving DecidableEq, Repr

/-- Result of scanning the ledger for one scraped name. -/
structure FindResult where
  matched : Bool
  matchedEntity : Option Name
  reason : String
  deriving DecidableEq, Repr

/-- findMatch: scan the ledger in insertion order, returning on the first
positive verdict. -/
def findMatch (scrapedName : Name) : List (Name × LedgerEntry) → FindResult
  | [] => ⟨false, none, "no-match"⟩
  | (_, d) :: rest =>
      if (matchEntities scrapedName d.entity).matched then
        ⟨true, some d.entity, (matchEntities scrapedName d.entity).reason⟩
      else findMatch scrapedName rest

/-! ### Helper lemmas -/

/-- Lowercasing is idempotent on characters. -/
theorem toLower_toLower (c : Char) : c.toLower.toLower = c.toLower := by
  have key : ∀ n, 65 ≤ n → n ≤ 90 →
      (Char.ofNat n).toLower.toLower = (Char.ofNat n).toLower := by
    intro n h1 h2
    interval_cases n <;> decide
  by_cases h : c.toNat ≥ 65 ∧ c.toNat ≤ 90
  · have := key c.toNat h.1 h.2
    rwa [Char.ofNat_toNat] at this
  · have hfix : c.toLower = c := by
      unfold Char.toLower
      exact if_neg h
    rw [hfix, hfix]

/-- Characters kept by a stripping pass come from the input. -/
theorem mem_stripGo (w : Name) (c : Char) :
    ∀ (skip : Nat) (s : Name), c ∈ stripGo w skip s → c ∈ s := by
  intro skip s
  induction s generalizing skip with
  | nil => intro h; cases skip <;> simp [stripGo] at h
  | cons a rest ih =>
      intro h
      match skip with
      | skip'+1 => exact List.mem_cons_of_mem a (ih skip' h)
      | 0 =>
          rw [stripGo] at h
          split at h
          · exact List.mem_cons_of_mem a (ih _ h)
          · rcases List.mem_cons.mp h with h | h
            · exact h ▸ List.mem_cons_self a rest
            · exact List.mem_cons_of_mem a (ih 0 h)

/-- Characters kept by a word strip come from the input. -/
theorem mem_stripWord (w s : Name) (c : Char) (h : c ∈ stripWord w s) :
    c ∈ s := by
  unfold stripWord at h
  split at h
  · exact h
  · exact mem_stripGo w c 0 s h

/-- Characters kept by the sequence of word strips come from the input. -/
theorem mem_foldl_stripWord (g : Name → Name) (c : Char) :
    ∀ (ws : List Name) (s : Name),
      c ∈ ws.foldl (fun acc w => stripWord (g w) acc) s → c ∈ s := by
  intro ws
  induction ws with
  | nil => intro s h; exact h
  | cons w ws ih =>
      intro s h
      exact mem_stripWord (g w) s c (ih (stripWord (g w) s) h)

/-- Unfolding: stock-code removal on the empty string. -/
theorem stockGo_nil (skip : Nat) : stockGo skip [] = [] := by
  cases skip <;> rfl

/-- Unfolding: stock-code removal while skipping matched characters. -/
theorem stockGo_succ (skip : Nat) (a : Char) (rest : Name) :
    stockGo (skip+1) (a :: rest) = stockGo skip rest := rfl

/-- Unfolding: stock-code removal at a scanning position. -/
theorem stockGo_zero (a : Char) (rest : Name) :
    stockGo 0 (a :: rest) =
      match stockMatchLen (a :: rest) with
      | some n => stockGo (n - 1) rest
      | none => a :: stockGo 0 rest := rfl

/-- Characters kept by stock-code removal come from the input. -/
theorem mem_stockGo (c : Char) :
    ∀ (skip : Nat) (s : Name), c ∈ stockGo skip s → c ∈ s := by
  intro skip s
  induction s generalizing skip with
  | nil =>
      intro h
      rw [stockGo_nil] at h
      exact absurd h (List.not_mem_nil c)
  | cons a rest ih =>
      intro h
      cases skip with
      | succ k =>
          rw [stockGo_succ] at h
          exact List.mem_cons_of_mem a (ih k h)
      | zero =>
          rw [stockGo_zero] at h
          split at h
          · exact List.mem_cons_of_mem a (ih _ h)
          · rcases List.mem_cons.mp h with h | h
            · exact h ▸ List.mem_cons_self a rest
            · exact List.mem_cons_of_mem a (ih 0 h)

/-- Characters kept by trim come from the input. -/
theorem mem_trim (s : Name) (c : Char) (h : c ∈ trim s) : c ∈ s := by
  unfold trim at h
  have h1 : c ∈ (s.dropWhile isWs).reverse.dropWhile isWs :=
    List.mem_reverse.mp h
  have h2 : c ∈ (s.dropWhile isWs).reverse := (List.dropWhile_sublist _).mem h1
  have h3 : c ∈ s.dropWhile isWs := List.mem_reverse.mp h2
  exact (List.dropWhile_sublist _).mem h3

/-- dropWhile is the identity when no character satisfies the predicate. -/
theorem dropWhile_of_none (p : Char → Bool) (s : Name)
    (h : ∀ c ∈ s, p c = false) : s.dropWhile p = s := by
  cases s with
  | nil => rfl
  | cons a rest =>
      rw [List.dropWhile_cons, h a (List.mem_cons_self a rest)]
      simp

/-- trim is the identity on strings without edge whitespace. -/
theorem trim_of_no_ws (s : Name) (h : ∀ c ∈ s, isWs c = false) :
    trim s = s := by
  unfold trim
  rw [dropWhile_of_none isWs s h, dropWhile_of_none isWs s.reverse
    (fun c hc => h c (List.mem_reverse.mp hc)), List.reverse_reverse]

/-- Lowercasing is the identity on strings of lowercase-fixed characters. -/
theorem lowerAll_of_fixed (s : Name) (h : ∀ c ∈ s, c.toLower = c) :
    lowerAll s = s := by
  unfold lowerAll
  calc s.map Char.toLower = s.map id := List.map_congr_left h
  _ = s := List.map_id s

/-- A stripping pass is the identity when the word never occurs. -/
theorem stripGo_of_no_occurs (w s : Name) (h : occursCI w s = false) :
    stripGo w 0 s = s := by
  induction s with
  | nil => rfl
  | cons a rest ih =>
      rw [occursCI, Bool.or_eq_false_iff] at h
      rw [stripGo, if_neg (by rw [h.1]; exact Bool.false_ne_true), ih h.2]

/-- A word strip is the identity when the word never occurs. -/
theorem stripWord_of_no_occurs (w s : Name) (h : occursCI w s = false) :
    stripWord w s = s := by
  unfold stripWord
  split
  · rfl
  · exact stripGo_of_no_occurs w s h

/-- The sequence of word strips is the identity when no word occurs. -/
theorem foldl_stripWord_of_no_occurs (g : Name → Name) :
    ∀ (ws : List Name) (s : Name), (∀ w ∈ ws, occursCI (g w) s = false) →
      ws.foldl (fun acc w => stripWord (g w) acc) s = s := by
  intro ws
  induction ws with
  | nil => intro s _; rfl
  | cons w ws ih =>
      intro s h
      have hw : stripWord (g w) s = s :=
        stripWord_of_no_occurs (g w) s (h w (List.mem_cons_self w ws))
      calc (w :: ws).foldl (fun acc w => stripWord (g w) acc) s
          = ws.foldl (fun acc w => stripWord (g w) acc) (stripWord (g w) s) :=
            rfl
        _ = ws.foldl (fun acc w => stripWord (g w) acc) s := by rw [hw]
        _ = s := ih s (fun u hu => h u (List.mem_cons_of_mem w hu))

/-- Stock-code removal is the identity when the pattern never matches. -/
theorem stockGo_of_no_occurs (s : Name) (h : stockOccurs s = false) :
    stockGo 0 s = s := by
  induction s with
  | nil => rfl
  | cons a rest ih =>
      rw [stockOccurs, Bool.or_eq_false_iff] at h
      have hnone : stockMatchLen (a :: rest) = none :=
        Option.not_isSome_iff_eq_none.mp (by rw [h.1]; exact Bool.false_ne_true)
      rw [stockGo_zero, hnone]
      show a :: stockGo 0 rest = a :: rest
      rw [ih h.2]

/-- Every character of a normalized name is whitespace-free. -/
theorem normalizeName_no_ws (x : Name) :
    ∀ c ∈ normalizeName x, isWs c = false := by
  intro c hc
  unfold normalizeName at hc
  split at hc
  · exact absurd hc (List.not_mem_nil c)
  · have := List.of_mem_filter hc
    simpa using this

/-- Every character of a normalized name is lowercase-fixed. -/
theorem normalizeName_lower_fixed (x : Name) :
    ∀ c ∈ normalizeName x, c.toLower = c := by
  intro c hc
  unfold normalizeName at hc
  split at hc
  · exact absurd hc (List.not_mem_nil c)
  · have h1 := List.mem_of_mem_filter hc
    have h2 := mem_foldl_stripWord lowerAll c STRIP_WORDS _ h1
    have h3 := mem_stockGo c 0 _ h2
    rcases List.mem_map.mp h3 with ⟨d, _, hd⟩
    rw [← hd]
    exact toLower_toLower d

/-- A verdict produced by one core-pair comparison names one of the two
core strategies. -/
theorem corePairVerdict_cases (sc ec : Name) (v : MatchVerdict)
    (h : corePairVerdict sc ec = some v) :
    v = ⟨true, "core-exact"⟩ ∨ v = ⟨true, "core-substring"⟩ := by
  unfold corePairVerdict at h
  split at h
  · split at h
    · exact Or.inl (Option.some.inj h).symm
    · split at h
      · split at h
        · exact Or.inr (Option.some.inj h).symm
        · exact Option.noConfusion h
      · exact Option.noConfusion h
  · exact Option.noConfusion h

/-- A verdict produced by the inner core loop names a core strategy. -/
theorem coreLoopInner_cases (sc : Name) (v : MatchVerdict) :
    ∀ ecs : List Name, coreLoopInner sc ecs = some v →
      v = ⟨true, "core-exact"⟩ ∨ v = ⟨true, "core-substring"⟩ := by
  intro ecs
  induction ecs with
  | nil => intro h; exact Option.noConfusion h
  | cons ec rest ih =>
      intro h
      rw [coreLoopInner] at h
      split at h
      · next w heq => exact (Option.some.inj h) ▸ corePairVerdict_cases sc ec w heq
      · exact ih h

/-- A verdict produced by the outer core loop names a core strategy. -/
theorem coreLoopOuter_cases (v : MatchVerdict) :
    ∀ (scs ecs : List Name), coreLoopOuter scs ecs = some v →
      v = ⟨true, "core-exact"⟩ ∨ v = ⟨true, "core-substring"⟩ := by
  intro scs
  induction scs with
  | nil => intro ecs h; exact Option.noConfusion h
  | cons sc rest ih =>
      intro ecs h
      rw [coreLoopOuter] at h
      split at h
      · next w heq => exact (Option.some.inj h) ▸ coreLoopInner_cases sc w ecs heq
      · exact ih ecs h

/-- The quorum fallback yields the multi-person verdict or no-match. -/
theorem quorumFallback_cases (a b : Name) :
    quorumFallback a b = ⟨true, "multi-person"⟩ ∨
      quorumFallback a b = ⟨false, "no-match"⟩ := by
  unfold quorumFallback
  split
  · split
    · exact Or.inl rfl
    · exact Or.inr rfl
  · exact Or.inr rfl

/-- Every verdict of the cascade is one of the eight literal verdicts. -/
theorem matchEntities_cases (a b : Name) :
    matchEntities a b = ⟨false, "empty"⟩ ∨
    matchEntities a b = ⟨true, "direct"⟩ ∨
    matchEntities a b = ⟨true, "s2t"⟩ ∨
    matchEntities a b = ⟨true, "t2s"⟩ ∨
    matchEntities a b = ⟨true, "core-exact"⟩ ∨
    matchEntities a b = ⟨true, "core-substring"⟩ ∨
    matchEntities a b = ⟨true, "multi-person"⟩ ∨
    matchEntities a b = ⟨false, "no-match"⟩ := by
  unfold matchEntities
  split
  · exact Or.inl rfl
  · split
    · exact Or.inr (Or.inl rfl)
    · split
      · exact Or.inr (Or.inr (Or.inl rfl))
      · split
        · exact Or.inr (Or.inr (Or.inr (Or.inl rfl)))
        · rcases hco : coreLoopOuter
              (extractCoreNames a ++ (extractCoreNames a).map s2t)
              (extractCoreNames b) with _ | v
          · rw [Option.getD_none]
            rcases quorumFallback_cases a b with h | h
            · exact Or.inr (Or.inr (Or.inr (Or.inr (Or.inr (Or.inr
                (Or.inl h))))))
            · exact Or.inr (Or.inr (Or.inr (Or.inr (Or.inr (Or.inr
                (Or.inr h))))))
          · rw [Option.getD_some]
            rcases coreLoopOuter_cases v _ _ hco with h | h
            · exact Or.inr (Or.inr (Or.inr (Or.inr (Or.inl h))))
            · exact Or.inr (Or.inr (Or.inr (Or.inr (Or.inr (Or.inl h)))))

/-! ### Claim theorems -/

/-- C1 (counterexample): "先生" and "小姐" normalize to the same (empty)
string, yet matchEntities does not return the direct verdict, refuting the
claim that equal normalized strings always yield matched true with reason
direct. -/
theorem C1_counterexample :
    normalizeName "先生".toList = normalizeName "小姐".toList ∧
    matchEntities "先生".toList "小姐".toList = ⟨false, "no-match"⟩ :=
  ⟨by decide, by decide⟩

/-- C1 (amended): the direct-substring strategy agrees everywhere with the
specification's description amended so that the strategy fails when either
normalized name is empty, and the fixture matchEntities("東亞","東亞銀行")
returns matched true with reason direct. -/
theorem C1_direct_substring :
    (∀ name1 name2 : Name,
      substringMatch name1 name2 = specDirectSubstring name1 name2) ∧
    matchEntities "東亞".toList "東亞銀行".toList = ⟨true, "direct"⟩ :=
  ⟨fun _ _ => rfl, by decide⟩

/-- C2: isTooGeneric returns true exactly when the trimmed, lowercased
name is shorter than the script-dependent minimum (2 with a CJK ideograph,
4 otherwise) or is exactly equal to a denylist entry; moreover
isTooGeneric("中國") is true and isTooGeneric("東亞") is false. -/
theorem C2_isTooGeneric_spec :
    (∀ name : Name,
      isTooGeneric name = true ↔
        ((lowerAll (trim name)).length <
            (if containsChinese (lowerAll (trim name)) then 2 else 4) ∨
          ∃ p ∈ FALSE_POSITIVE_PREFIXES, lowerAll (trim name) = lowerAll p)) ∧
    isTooGeneric "中國".toList = true ∧ isTooGeneric "東亞".toList = false := by
  refine ⟨fun name => ?_, by decide, by decide⟩
  unfold isTooGeneric getMinLength MIN_SUBSTRING_LENGTH_CN
    MIN_SUBSTRING_LENGTH_EN
  by_cases h : (lowerAll (trim name)).length <
      (if containsChinese (lowerAll (trim name)) then 2 else 4)
  · rw [if_pos h]
    simp [h]
  · rw [if_neg h]
    simp only [List.any_eq_true, beq_iff_eq]
    exact (or_iff_right h).symm

/-- The loop of extractCoreNames keeps exactly the cleaned segments of
length at least two, in order. -/
theorem keepCores_eq (ps : List Name) :
    keepCores ps =
      (ps.map cleanPart).filter (fun c => decide (2 ≤ c.length)) := by
  induction ps with
  | nil => rfl
  | cons p ps ih =>
      rw [keepCores, List.map_cons, List.filter_cons]
      by_cases h : 2 ≤ (cleanPart p).length
      · rw [if_pos h, ih, if_pos (by rw [decide_eq_true h])]
      · rw [if_neg h, ih, if_neg (by rw [decide_eq_false h]; exact
          Bool.false_ne_true)]

/-- C3: extractCoreNames splits on the separator set, strips and trims
each segment, keeps exactly the segments of post-strip length at least 2
in left-to-right order, and maps the documented fixture to
["張智霖", "袁詠儀"]. -/
theorem C3_extract_cores :
    (∀ name : Name,
      extractCoreNames name =
        ((splitSeps name).map cleanPart).filter
          (fun c => decide (2 ≤ c.length))) ∧
    extractCoreNames "藝人張智霖先生 及 袁詠儀小姐一家".toList =
      ["張智霖".toList, "袁詠儀".toList] := by
  refine ⟨fun name => ?_, by decide⟩
  unfold extractCoreNames
  split
  · next h =>
      rw [List.isEmpty_iff.mp h]
      rfl
  · exact keepCores_eq _

/-- C4 (counterexample): a concrete pair on which both sides yield two
cores, every earlier strategy fails, and the quorum count reaches 2, yet
the returned reason is not "multi-person-quorum" (the code returns
"multi-person"). -/
theorem C4_counterexample :
    2 ≤ (extractCoreNames "一一家家、中國工商".toList).length ∧
    2 ≤ (extractCoreNames "黃小明、中國".toList).length ∧
    2 ≤ quorumCount (extractCoreNames "一一家家、中國工商".toList)
        (extractCoreNames "黃小明、中國".toList) ∧
    substringMatch (normalizeOrgName "一一家家、中國工商".toList)
      (normalizeOrgName "黃小明、中國".toList) = false ∧
    substringMatch (s2t (normalizeOrgName "一一家家、中國工商".toList))
      (normalizeOrgName "黃小明、中國".toList) = false ∧
    substringMatch (normalizeOrgName "一一家家、中國工商".toList)
      (t2s (normalizeOrgName "黃小明、中國".toList)) = false ∧
    coreLoopOuter
      (extractCoreNames "一一家家、中國工商".toList ++
        (extractCoreNames "一一家家、中國工商".toList).map s2t)
      (extractCoreNames "黃小明、中國".toList) = none ∧
    (matchEntities "一一家家、中國工商".toList "黃小明、中國".toList).matched
      = true ∧
    (matchEntities "一一家家、中國工商".toList "黃小明、中國".toList).reason
      ≠ "multi-person-quorum" := by
  refine ⟨by decide, by decide, by decide, by decide, by decide, by decide,
    by decide, by decide, by decide⟩

/-- C4 (amended): when both inputs are non-empty and every earlier
strategy fails, matchEntities succeeds with reason "multi-person" exactly
when both sides yield at least two cores and at least two distinct
normalized scraped cores have a normalized existing core equal to,
contained in, or containing them; otherwise it returns no-match. -/
theorem C4_multi_person_quorum (a b : Name)
    (ha : a.isEmpty = false) (hb : b.isEmpty = false)
    (h1 : substringMatch (normalizeOrgName a) (normalizeOrgName b) = false)
    (h2 : substringMatch (s2t (normalizeOrgName a)) (normalizeOrgName b)
      = false)
    (h3 : substringMatch (normalizeOrgName a) (t2s (normalizeOrgName b))
      = false)
    (h4 : coreLoopOuter (extractCoreNames a ++ (extractCoreNames a).map s2t)
      (extractCoreNames b) = none) :
    matchEntities a b =
      if 2 ≤ (extractCoreNames a).length &&
          2 ≤ (extractCoreNames b).length then
        if 2 ≤ quorumCount (extractCoreNames a) (extractCoreNames b) then
          ⟨true, "multi-person"⟩
        else ⟨false, "no-match"⟩
      else ⟨false, "no-match"⟩ := by
  unfold matchEntities
  rw [ha, hb, h1, h2, h3, h4]
  rw [if_neg (by decide : ¬(((false : Bool) || false) = true))]
  rw [if_neg (by decide : ¬((false : Bool) = true)),
    if_neg (by decide : ¬((false : Bool) = true)),
    if_neg (by decide : ¬((false : Bool) = true)), Option.getD_none]
  rfl

/-- C4 (witness): the amended quorum description evaluated at the concrete
pair from the counterexample. -/
theorem C4_witness :
    matchEntities "一一家家、中國工商".toList "黃小明、中國".toList =
      if 2 ≤ (extractCoreNames "一一家家、中國工商".toList).length &&
          2 ≤ (extractCoreNames "黃小明、中國".toList).length then
        if 2 ≤ quorumCount (extractCoreNames "一一家家、中國工商".toList)
            (extractCoreNames "黃小明、中國".toList) then
          (⟨true, "multi-person"⟩ : MatchVerdict)
        else ⟨false, "no-match"⟩
      else ⟨false, "no-match"⟩ :=
  C4_multi_person_quorum "一一家家、中國工商".toList "黃小明、中國".toList
    (by decide) (by decide) (by decide) (by decide) (by decide) (by decide)

/-- C5: findMatch scans the ledger in order: if every entry gets a
negative verdict the scan returns no-match with no entity, and if the
entries of a prefix all get negative verdicts while the next entry gets a
positive one, the scan returns that entry's display name together with
that verdict's reason. -/
theorem C5_find_match :
    (∀ (s : Name) (l : List (Name × LedgerEntry)),
      (∀ e ∈ l, (matchEntities s e.2.entity).matched = false) →
      findMatch s l = ⟨false, none, "no-match"⟩) ∧
    (∀ (s : Name) (l1 l2 : List (Name × LedgerEntry)) (k : Name)
        (d : LedgerEntry),
      (∀ e ∈ l1, (matchEntities s e.2.entity).matched = false) →
      (matchEntities s d.entity).matched = true →
      findMatch s (l1 ++ (k, d) :: l2) =
        ⟨true, some d.entity, (matchEntities s d.entity).reason⟩) := by
  constructor
  · intro s l
    induction l with
    | nil => intro _; rfl
    | cons e rest ih =>
        intro h
        rcases e with ⟨k, d⟩
        have hd : (matchEntities s d.entity).matched = false :=
          h (k, d) (List.mem_cons_self (k, d) rest)
        have hnot : ¬(matchEntities s d.entity).matched = true := by
          rw [hd]
          exact Bool.false_ne_true
        rw [findMatch, if_neg hnot]
        exact ih fun e he => h e (List.mem_cons_of_mem (k, d) he)
  · intro s l1 l2 k d
    induction l1 with
    | nil =>
        intro _ hpos
        rw [List.nil_append, findMatch, if_pos hpos]
    | cons e rest ih =>
        intro hneg hpos
        rcases e with ⟨k1, d1⟩
        have hd1 : (matchEntities s d1.entity).matched = false :=
          hneg (k1, d1) (List.mem_cons_self (k1, d1) rest)
        have hnot : ¬(matchEntities s d1.entity).matched = true := by
          rw [hd1]
          exact Bool.false_ne_true
        rw [List.cons_append, findMatch, if_neg hnot]
        exact ih (fun e he => hneg e (List.mem_cons_of_mem (k1, d1) he)) hpos

/-- C5 (witness): the scan evaluated on a concrete two-entry ledger whose
first entry does not match and whose second does. -/
theorem C5_witness :
    findMatch "東亞".toList
        ([("張柏芝".toList, ⟨"張柏芝".toList⟩)] ++
          ("東亞銀行".toList, (⟨"東亞銀行".toList⟩ : LedgerEntry)) :: []) =
      ⟨true, some "東亞銀行".toList,
        (matchEntities "東亞".toList "東亞銀行".toList).reason⟩ :=
  C5_find_match.2 "東亞".toList [("張柏芝".toList, ⟨"張柏芝".toList⟩)] []
    "東亞銀行".toList ⟨"東亞銀行".toList⟩ (by decide) (by decide)

/-- C6 (counterexample): the script-conversion strategy returns the
literal reason "s2t", which is not among the reason values the claim
enumerates. -/
theorem C6_counterexample :
    (matchEntities "刘亦菲女士".toList "劉亦菲".toList).reason = "s2t" ∧
    ("s2t" : String) ∉
      (["direct", "script-converted-forward", "script-converted-backward",
        "core-exact", "core-substring", "multi-person-quorum", "no-match",
        "empty"] : List String) :=
  ⟨by decide, by decide⟩

/-- C6 (amended): every reason value returned by matchEntities belongs to
the code's eight-element reason enumeration, where script conversion
forward is "s2t", backward is "t2s", and the quorum reason is
"multi-person". -/
theorem C6_reason_enumeration (a b : Name) :
    (matchEntities a b).reason ∈
      (["direct", "s2t", "t2s", "core-exact", "core-substring",
        "multi-person", "no-match", "empty"] : List String) := by
  rcases matchEntities_cases a b with h | h | h | h | h | h | h | h <;>
    rw [h] <;> decide

/-- C8 (counterexample): the matched decision is not symmetric on the
section-8 script-conversion fixture: the simplified-script name matches
the traditional one, but not conversely. -/
theorem C8_counterexample :
    (matchEntities "刘亦菲女士".toList "劉亦菲".toList).matched = true ∧
    (matchEntities "劉亦菲".toList "刘亦菲女士".toList).matched = false :=
  ⟨by decide, by decide⟩

/-- C8 (amended): the matched decision agrees in both directions on the
section-8 fixture pairs that need no script conversion, while the
script-conversion pair is direction-dependent: matched forward, unmatched
backward. -/
theorem C8_symmetry_on_fixtures :
    ((matchEntities "東亞".toList "東亞銀行".toList).matched =
      (matchEntities "東亞銀行".toList "東亞".toList).matched) ∧
    ((matchEntities "中國燃氣（0384）".toList "中國宏橋".toList).matched =
      (matchEntities "中國宏橋".toList "中國燃氣（0384）".toList).matched) ∧
    ((matchEntities "張柏芝".toList "張智霖".toList).matched =
      (matchEntities "張智霖".toList "張柏芝".toList).matched) ∧
    (matchEntities "刘亦菲女士".toList "劉亦菲".toList).matched = true ∧
    (matchEntities "劉亦菲".toList "刘亦菲女士".toList).matched = false :=
  ⟨by decide, by decide, by decide, by decide, by decide⟩

/-- C10: a verdict's matched flag is true exactly when its reason is
neither "no-match" nor "empty". -/
theorem C10_matched_iff_reason (a b : Name) :
    (matchEntities a b).matched = true ↔
      ¬((matchEntities a b).reason = "no-match" ∨
        (matchEntities a b).reason = "empty") := by
  rcases matchEntities_cases a b with h | h | h | h | h | h | h | h <;>
    rw [h] <;> decide

/-- C7 (counterexample): normalization is not idempotent: stripping can
create a fresh stop-phrase occurrence, so normalizing "一一家家" yields
"一家", which a second normalization empties. -/
theorem C7_counterexample :
    normalizeName (normalizeName "一一家家".toList) ≠
      normalizeName "一一家家".toList := by decide

/-- C7 (amended): normalization is idempotent on every input whose
normalized form contains no stop-phrase occurrence and no stock-code
pattern. -/
theorem C7_normalize_idempotent (x : Name)
    (h1 : ∀ w ∈ STRIP_WORDS,
      occursCI (lowerAll w) (normalizeName x) = false)
    (h2 : stockOccurs (normalizeName x) = false) :
    normalizeName (normalizeName x) = normalizeName x := by
  have hnw := normalizeName_no_ws x
  have hlf := normalizeName_lower_fixed x
  set y := normalizeName x with hy
  by_cases hemp : y.isEmpty
  · rw [normalizeName, if_pos hemp]
    exact (List.isEmpty_iff.mp hemp).symm
  · rw [normalizeName, if_neg hemp]
    rw [trim_of_no_ws y hnw, lowerAll_of_fixed y hlf]
    have hstock : stripStock y = y := stockGo_of_no_occurs y h2
    rw [hstock, foldl_stripWord_of_no_occurs lowerAll STRIP_WORDS y h1]
    refine List.filter_eq_self.mpr fun c hc => ?_
    rw [hnw c hc]
    rfl

/-- C7 (witness): the amended idempotence applied at "東亞", whose
normalized form contains no stop-phrase and no stock code. -/
theorem C7_witness :
    normalizeName (normalizeName "東亞".toList) = normalizeName "東亞".toList :=
  C7_normalize_idempotent "東亞".toList (by decide) (by decide)

/-- Splitting a string with no separator characters yields the pending
segment followed by the string. -/
theorem splitSepsGo_no_sep :
    ∀ (s cur : Name), (∀ c ∈ s, isSep c = false) → cur ≠ [] ∨ s ≠ [] →
      splitSepsGo cur s = [cur.reverse ++ s] := by
  intro s
  induction s with
  | nil =>
      intro cur _ hne
      rcases hne with hne | hne
      · rw [splitSepsGo,
          if_neg fun hh => hne (List.isEmpty_iff.mp hh), List.append_nil]
      · exact absurd rfl hne
  | cons c cs ih =>
      intro cur hsep _
      have hc : isSep c = false := hsep c (List.mem_cons_self c cs)
      have hnot : ¬isSep c = true := by
        rw [hc]
        exact Bool.false_ne_true
      rw [splitSepsGo, if_neg hnot,
        ih (c :: cur) (fun d hd => hsep d (List.mem_cons_of_mem c hd))
          (Or.inl (List.cons_ne_nil c cur)),
        List.reverse_cons, List.append_assoc, List.singleton_append]

/-- Plain version of the strip-fold identity, for extractCoreNames. -/
theorem foldl_stripWord_plain (ws : List Name) (s : Name)
    (h : ∀ w ∈ ws, occursCI w s = false) :
    ws.foldl (fun acc w => stripWord w acc) s = s := by
  have hg := foldl_stripWord_of_no_occurs (fun w => w) ws s h
  exact hg

/-- Cleaning a segment with no whitespace and no stop-phrase occurrence
leaves it unchanged. -/
theorem cleanPart_id (p : Name) (hws : ∀ c ∈ p, isWs c = false)
    (hw : ∀ w ∈ STRIP_WORDS, occursCI w p = false) : cleanPart p = p := by
  unfold cleanPart
  rw [show STRIP_WORDS.foldl (fun acc w => stripWord w acc) p = p from
    foldl_stripWord_plain STRIP_WORDS p hw]
  exact trim_of_no_ws p hws

/-- C9 (counterexample): "先生" is non-empty and contains no separator,
yet the core extractor does not return it as its single core (the
stop-phrase strip empties it). -/
theorem C9_counterexample :
    ("先生".toList : Name) ≠ [] ∧
    ("先生".toList.all fun c => !isSep c) = true ∧
    extractCoreNames "先生".toList ≠ ["先生".toList] :=
  ⟨by decide, by decide, by decide⟩

/-- C9 (amended): a non-empty raw name with no separator character, no
stop-phrase occurrence, and length at least 2 is returned by the core
extractor as its single core. -/
theorem C9_no_separator (name : Name) (hne : name ≠ [])
    (hsep : ∀ c ∈ name, isSep c = false)
    (hw : ∀ w ∈ STRIP_WORDS, occursCI w name = false)
    (hlen : 2 ≤ name.length) :
    extractCoreNames name = [name] := by
  have hws : ∀ c ∈ name, isWs c = false := by
    intro c hc
    have h1 := hsep c hc
    rw [isSep] at h1
    rcases Bool.or_eq_false_iff.mp h1 with ⟨_, h2⟩
    exact h2
  have hsplit : splitSeps name = [name] := by
    unfold splitSeps
    rw [splitSepsGo_no_sep name [] hsep (Or.inr hne)]
    rfl
  have hclean : cleanPart name = name := cleanPart_id name hws hw
  unfold extractCoreNames
  rw [if_neg fun hh => hne (List.isEmpty_iff.mp hh), hsplit, keepCores,
    hclean, if_pos hlen, keepCores]

/-- C9 (witness): the amended statement applied at "張智霖". -/
theorem C9_witness : extractCoreNames "張智霖".toList = ["張智霖".toList] :=
  C9_no_separator "張智霖".toList (by decide) (by decide) (by decide)
    (by decide)

end Watcher
